import Mathlib

/-!
Shallow embedding of the `video_qr_scan` repository (files `qr_gen.py` and
`scan_qr_codes_from_video.py`).  The QR rendering, image and video I/O are
external library calls (qrcode, cv2, pyzbar) and are out of scope; what is
embedded here is the payload codec (the JSON dictionaries carried by the QR
codes and their textual serialization), the frame-sequence generator with its
shuffle transformation, the reconciliation engine `analyze_frames_data`, and
the CLI argument validation of `qr_gen.py`.
-/

namespace VideoQrScan

/-! ## Payload codec

A generated payload is a one-key JSON dictionary: the sync record
`{"total_frames": N}` or a frame record `{"frame_i": k}` (qr_gen.py,
`generate_qr_codes`, lines 24-29).  `encode` models `json.dumps` on these
dictionaries (default separators, hence a `": "` between key and value) and
`decode` models `json.loads` restricted to the single-key integer objects this
protocol uses, followed by the field-presence shape dispatch used by the
scanner. -/

/-- A payload value: sync record or frame record (tagged by field presence). -/
inductive Payload where
  | sync (total_frames : Int)
  | frame (frame_i : Int)
deriving DecidableEq

/-- A payload is valid when its integer field is positive (spec section 3). -/
def validPayload : Payload → Prop
  | .sync n => 0 < n
  | .frame k => 0 < k

/-- The decimal digit character for a value below ten. -/
def digitChar (n : Nat) : Char := Char.ofNat (48 + n)

/-- Big-endian decimal printer, structurally recursive on a fuel argument so
that it evaluates in the kernel. -/
def natToCharsAux : Nat → Nat → List Char
  | 0, _ => []
  | fuel + 1, n =>
    if n < 10 then [digitChar n]
    else natToCharsAux fuel (n / 10) ++ [digitChar (n % 10)]

/-- Big-endian decimal representation of a natural number, as `str` in Python
prints it inside `json.dumps`; the fuel `n + 1` always suffices since the
argument shrinks by a factor of ten each step. -/
def natToChars (n : Nat) : List Char := natToCharsAux (n + 1) n

/-- Characters of `\x7b"total_frames": ` — the part of the serialized sync
dictionary before the number. -/
def syncHeader : List Char :=
  ['\x7b', '"', 't', 'o', 't', 'a', 'l', '_', 'f', 'r', 'a', 'm', 'e', 's', '"', ':', ' ']

/-- Characters of `\x7b"frame_i": ` — the part of the serialized frame
dictionary before the number. -/
def frameHeader : List Char :=
  ['\x7b', '"', 'f', 'r', 'a', 'm', 'e', '_', 'i', '"', ':', ' ']

/-- Serialization of a payload dictionary, as `json.dumps` emits it in
`generate_qr_codes`.  Valid payloads carry positive integers, printed as plain
decimal. -/
def encode : Payload → List Char
  | .sync n => syncHeader ++ natToChars n.toNat ++ ['\x7d']
  | .frame k => frameHeader ++ natToChars k.toNat ++ ['\x7d']

/-- Tests whether a character is a decimal digit. -/
def isDigitChar (c : Char) : Bool := 48 ≤ c.toNat && c.toNat ≤ 57

/-- Splits a character list into its maximal leading run of digits and the
rest. -/
def takeDigits : List Char → List Char × List Char
  | [] => ([], [])
  | c :: cs =>
    if isDigitChar c then
      let p := takeDigits cs
      (c :: p.1, p.2)
    else ([], c :: cs)

/-- Value of a big-endian digit string, folded onto an accumulator. -/
def digitsToNat (acc : Nat) : List Char → Nat
  | [] => acc
  | c :: cs => digitsToNat (acc * 10 + (c.toNat - 48)) cs

/-- Consumes an expected literal header from the front of the input, returning
the remainder on success. -/
def consumeHeader : List Char → List Char → Option (List Char)
  | [], s => some s
  | _ :: _, [] => none
  | p :: ps, c :: cs => if c = p then consumeHeader ps cs else none

/-- Parses a nonempty digit run followed by the closing brace, yielding the
number. -/
def parseNatTail (s : List Char) : Option Nat :=
  let p := takeDigits s
  if p.1 = [] then none
  else if p.2 = ['\x7d'] then some (digitsToNat 0 p.1) else none

/-- Deserialization: `json.loads` on the one-key integer dictionaries of the
protocol, combined with the field-presence dispatch (a `total_frames` key makes
a sync record, a `frame_i` key a frame record). -/
def decode (s : List Char) : Option Payload :=
  match consumeHeader syncHeader s with
  | some rest => (parseNatTail rest).map (fun n => .sync (Int.ofNat n))
  | none =>
    match consumeHeader frameHeader s with
    | some rest => (parseNatTail rest).map (fun n => .frame (Int.ofNat n))
    | none => none

/-! ## Scanned frame data and the reconciliation engine

`scan_qr_codes` returns a list of JSON objects; the analysis accesses only the
keys `total_frames` and `frame_i`, so an observed dictionary is modelled by its
(optional) integer values at those two keys.  `analyze_frames_data` signals
errors in Python by printing a message and returning `(0, [], [])`, or by an
uncaught exception (`KeyError` from `frame[FRAME_I]`, `ValueError` from
`missing_frames.remove`); the embedding makes each outcome an explicit
`AnalyzeError` constructor. -/

/-- An observed QR dictionary, restricted to the two keys the analysis reads. -/
structure QrData where
  total_frames : Option Int
  frame_i : Option Int
deriving DecidableEq

/-- One record of the `out_of_order_frames` list.  Field names and contents
follow the code (scan_qr_codes_from_video.py lines 121-124): the key
`expected_frame_i` holds the declared `frame_i` and the key `actual_frame_i`
holds the playback position `i`. -/
structure OutOfOrderEntry where
  expected_frame_i : Int
  actual_frame_i : Int
deriving DecidableEq

/-- The reconciliation result `(total_frames, missing_frames,
out_of_order_frames)`. -/
structure Report where
  total_frames : Int
  missing_frames : List Int
  out_of_order_frames : List OutOfOrderEntry
deriving DecidableEq

/-- Ways `analyze_frames_data` fails.  `emptyInput` and `missingSyncFrame`
model the printed-error-and-`(0, [], [])` returns; `keyError` and `valueError`
model the uncaught Python exceptions from `frame["frame_i"]` on a dictionary
without that key and from `missing_frames.remove` on an absent value. -/
inductive AnalyzeError where
  | emptyInput
  | missingSyncFrame
  | keyError
  | valueError
deriving DecidableEq

instance {ε α : Type} [DecidableEq ε] [DecidableEq α] : DecidableEq (Except ε α) :=
  fun a b =>
    match a, b with
    | .ok x, .ok y =>
      if h : x = y then isTrue (by rw [h]) else isFalse (by intro hc; cases hc; exact h rfl)
    | .error x, .error y =>
      if h : x = y then isTrue (by rw [h]) else isFalse (by intro hc; cases hc; exact h rfl)
    | .ok _, .error _ => isFalse (by intro hc; cases hc)
    | .error _, .ok _ => isFalse (by intro hc; cases hc)

/-- Embedding of `read_sync_frame` applied to the first observed dictionary:
a missing `total_frames` key or a falsy (zero) value yields `(False, 0)`,
otherwise `(True, total_frames)`.  (The `isinstance` check is trivially true in
this integer-valued model.) -/
def read_sync_frame (first_frame : QrData) : Bool × Int :=
  match first_frame.total_frames with
  | none => (false, 0)
  | some t => if t = 0 then (false, 0) else (true, t)

/-- Embedding of Python `list.remove`: deletes the first occurrence of `x`,
or fails (`ValueError`) when `x` is absent. -/
def removeFirst (l : List Int) (x : Int) : Option (List Int) :=
  match l with
  | [] => none
  | y :: ys => if y = x then some ys else (removeFirst ys x).map (fun r => y :: r)

/-- The initial missing list `[i for i in range(1, total_frames)]`. -/
def missingInit (t : Int) : List Int :=
  (List.range' 1 (t - 1).toNat).map Int.ofNat

/-- The walk over `frames_data[1:]` of `analyze_frames_data`, carrying the
1-based playback position `i`, the missing list and the accumulated
out-of-order list. -/
def analyzeLoop : List QrData → Int → List Int → List OutOfOrderEntry →
    Except AnalyzeError (List Int × List OutOfOrderEntry)
  | [], _, missing, ooo => .ok (missing, ooo)
  | f :: fs, i, missing, ooo =>
    match f.frame_i with
    | none => .error .keyError
    | some fi =>
      match removeFirst missing fi with
      | none => .error .valueError
      | some missing2 =>
        analyzeLoop fs (i + 1) missing2
          (if i ≠ fi then ooo ++ [⟨fi, i⟩] else ooo)

/-- Embedding of `analyze_frames_data` (scan_qr_codes_from_video.py lines
100-127): empty input and a bad sync frame are the two printed-error returns;
the walk starts at playback position 1 with the missing list
`range(1, total_frames)` and the out-of-order accumulator empty. -/
def analyze_frames_data (frames_data : List QrData) : Except AnalyzeError Report :=
  match frames_data with
  | [] => .error .emptyInput
  | first :: rest =>
    let sync := read_sync_frame first
    if sync.1 then
      (analyzeLoop rest 1 (missingInit sync.2) []).map
        (fun p => ⟨sync.2, p.1, p.2⟩)
    else .error .missingSyncFrame

/-! ## Frame-sequence generator and shuffle (qr_gen.py)

`generate_qr_codes` renders one QR code per index; the logical content of
frame `i` is the dictionary `{"total_frames": num_frames}` at index 0 and
`{"frame_i": i}` elsewhere (lines 24-29), so the generator is modelled as the
list of those dictionaries.  `random_shuffle_frames` copies the list and, per
iteration, swaps the entries at two distinct indices obtained from
`random.sample(range(1, len(list)), 2)`; the random outcomes are modelled by an
explicit list of index pairs, and `random.sample` raises `ValueError` exactly
when its population `range(1, n)` holds fewer than two elements. -/

/-- The sync dictionary written at index 0. -/
def syncData (n : Int) : QrData := ⟨some n, none⟩

/-- The frame dictionary written at index `i`. -/
def frameData (i : Nat) : QrData := ⟨none, some (Int.ofNat i)⟩

/-- Payload content of the frames produced by `generate_qr_codes num_frames`. -/
def generate_qr_codes (num_frames : Nat) : List QrData :=
  (List.range num_frames).map (fun i =>
    if i = 0 then syncData (Int.ofNat num_frames) else frameData i)

/-- One Python parallel assignment swap `l[a], l[b] = l[b], l[a]` (indices in
range whenever taken from `random.sample`). -/
def listSwap {α : Type u} (l : List α) (a b : Nat) : List α :=
  match l[a]?, l[b]? with
  | some x, some y => (l.set a y).set b x
  | _, _ => l

/-- Model of `random.sample(range(1, n), 2)`: succeeds with the (random) pair
exactly when the population `range(1, n)` has at least two elements, i.e.
`n >= 3`; otherwise `ValueError`. -/
def sampleTwo (n : Nat) (choice : Nat × Nat) : Option (Nat × Nat) :=
  if 3 ≤ n then some choice else none

/-- Embedding of `random_shuffle_frames` (qr_gen.py lines 52-59); the list of
pairs models the successive outcomes of `random.sample`, so its length is the
`num_shuffles` loop count, and `none` models the `ValueError` raised when the
population is too small. -/
def random_shuffle_frames {α : Type u} (qr_codes : List α)
    (choices : List (Nat × Nat)) : Option (List α) :=
  match choices with
  | [] => some qr_codes
  | c :: cs =>
    match sampleTwo qr_codes.length c with
    | none => none
    | some p => random_shuffle_frames (listSwap qr_codes p.1 p.2) cs

/-- A pair is a possible outcome of `random.sample(range(1, n), 2)`: two
distinct indices, both at least 1 and below `n`. -/
def validSwapPair (n : Nat) (c : Nat × Nat) : Prop :=
  1 ≤ c.1 ∧ c.1 < n ∧ 1 ≤ c.2 ∧ c.2 < n ∧ c.1 ≠ c.2

instance (n : Nat) (c : Nat × Nat) : Decidable (validSwapPair n c) := by
  unfold validSwapPair; infer_instance

/-! ## CLI argument validation of qr_gen.py

`parse_args` (lines 69-100) returns `None` after printing a descriptive error
when a check fails, and the caller then exits with status 1 before any file is
written; the embedding keeps the Python truthiness guards (`args.x and ...`)
of each check. -/

/-- Parsed generation arguments. -/
structure GenArgs where
  num_frames : Int
  output_path : Option String
  scramble : Option Int
  delete_random : Option Int
deriving DecidableEq

/-- The guard `args.output_path and len(args.output_path) <= 0`. -/
def outputPathBad : Option String → Bool
  | none => false
  | some s => s.length != 0 && s.length ≤ 0

/-- The guard `args.scramble and args.scramble < 0`. -/
def scrambleBad : Option Int → Bool
  | none => false
  | some v => v != 0 && v < 0

/-- The guard
`args.delete_random and (args.delete_random < 0 or args.delete_random > args.num_frames)`. -/
def deleteRandomBad (num_frames : Int) : Option Int → Bool
  | none => false
  | some v => v != 0 && (v < 0 || v > num_frames)

/-- Embedding of the validation in `parse_args` of qr_gen.py: `none` models
the printed-error-and-`None` return, after which the program exits with status
1 and produces no video. -/
def parse_args (a : GenArgs) : Option GenArgs :=
  if outputPathBad a.output_path then none
  else if a.num_frames ≤ 0 then none
  else if scrambleBad a.scramble then none
  else if deleteRandomBad a.num_frames a.delete_random then none
  else some a

example : analyze_frames_data [⟨some 3, none⟩, ⟨none, some 1⟩, ⟨none, some 2⟩] =
    .ok ⟨3, [], []⟩ := by decide

example : analyze_frames_data [⟨some 3, none⟩, ⟨none, some 2⟩] =
    .ok ⟨3, [1], [⟨2, 1⟩]⟩ := by decide

example : analyze_frames_data [⟨some 3, none⟩, ⟨none, some 1⟩, ⟨none, some 1⟩] =
    .error .valueError := by decide

example : decode (encode (.sync 12)) = some (.sync 12) := by decide

example : decode (encode (.frame 7)) = some (.frame 7) := by decide

example : random_shuffle_frames [10, 20, 30] [(1, 2)] = some [10, 30, 20] := by decide

example : random_shuffle_frames ([10, 20] : List Nat) [(1, 2)] = none := by decide

/-! ## Helper lemmas -/

lemma analyzeLoop_ne_emptyInput (fs : List QrData) (i : Int) (missing : List Int)
    (ooo : List OutOfOrderEntry) : analyzeLoop fs i missing ooo ≠ .error .emptyInput := by
  induction fs generalizing i missing ooo with
  | nil => simp [analyzeLoop]
  | cons f fs ih =>
    cases hf : f.frame_i with
    | none => simp [analyzeLoop, hf]
    | some fi =>
      cases hr : removeFirst missing fi with
      | none => simp [analyzeLoop, hf, hr]
      | some m2 =>
        simp only [analyzeLoop, hf, hr]
        exact ih _ _ _

lemma removeFirst_eq_some (l l2 : List Int) (x : Int)
    (h : removeFirst l x = some l2) : x ∈ l ∧ l2 = l.erase x := by
  induction l generalizing l2 with
  | nil => cases h
  | cons y ys ih =>
    by_cases hy : y = x
    · subst hy
      have hrf : removeFirst (y :: ys) y = some ys := by simp [removeFirst]
      rw [hrf] at h
      cases h
      exact ⟨List.mem_cons_self y ys, by simp⟩
    · simp only [removeFirst, if_neg hy] at h
      cases hr : removeFirst ys x with
      | none => rw [hr] at h; cases h
      | some r =>
        rw [hr] at h
        simp only [Option.map_some', Option.some.injEq] at h
        obtain ⟨hx, hr2⟩ := ih r hr
        subst hr2
        refine ⟨List.mem_cons_of_mem _ hx, ?_⟩
        rw [← h, List.erase_cons_tail (fun hc => hy (beq_iff_eq.mp hc))]

lemma analyzeLoop_clean (m : Nat) : ∀ (j : Nat) (ooo : List OutOfOrderEntry),
    analyzeLoop ((List.range' j m).map frameData) (Int.ofNat j)
      ((List.range' j m).map Int.ofNat) ooo = .ok ([], ooo) := by
  induction m with
  | zero => intro j ooo; simp [analyzeLoop]
  | succ m ih =>
    intro j ooo
    rw [List.range'_succ]
    simp only [List.map_cons, analyzeLoop, frameData]
    simp only [removeFirst, if_pos (rfl : Int.ofNat j = Int.ofNat j)]
    rw [if_neg (show ¬Int.ofNat j ≠ Int.ofNat j by simp)]
    have hc : Int.ofNat j + 1 = Int.ofNat (j + 1) := rfl
    rw [hc]
    exact ih (j + 1) ooo

lemma generate_qr_codes_eq (n : Nat) (h : 0 < n) :
    generate_qr_codes n =
      syncData (Int.ofNat n) :: (List.range' 1 (n - 1)).map frameData := by
  obtain ⟨m, rfl⟩ : ∃ m, n = m + 1 := ⟨n - 1, by omega⟩
  unfold generate_qr_codes
  rw [List.range_eq_range', List.range'_succ]
  simp only [List.map_cons, if_pos rfl, Nat.add_sub_cancel, Nat.zero_add]
  congr 1
  refine List.map_congr_left (fun i hi => ?_)
  have h1 : 1 ≤ i := by
    obtain ⟨k, _, rfl⟩ := List.mem_range'.1 hi
    omega
  rw [if_neg (by omega)]

lemma analyzeLoop_ooo_mono_mem (fs : List QrData) : ∀ (i : Int) (missing : List Int)
    (ooo : List OutOfOrderEntry) (res : List Int × List OutOfOrderEntry),
    analyzeLoop fs i missing ooo = .ok res →
    (∀ e ∈ ooo, e ∈ res.2) ∧
    ∀ (k : Nat) (f : QrData) (fi : Int), fs[k]? = some f → f.frame_i = some fi →
      fi ≠ i + k → (⟨fi, i + k⟩ : OutOfOrderEntry) ∈ res.2 := by
  induction fs with
  | nil =>
    intro i missing ooo res h
    simp only [analyzeLoop, Except.ok.injEq] at h
    constructor
    · intro e he
      rw [← h]
      exact he
    · intro k f fi hk
      simp at hk
  | cons f fs ih =>
    intro i missing ooo res h
    cases hf : f.frame_i with
    | none => simp [analyzeLoop, hf] at h
    | some fi =>
      cases hr : removeFirst missing fi with
      | none => simp [analyzeLoop, hf, hr] at h
      | some m2 =>
        simp only [analyzeLoop, hf, hr] at h
        obtain ⟨mono2, pos2⟩ := ih (i + 1) m2 _ res h
        have hooo : ∀ e ∈ ooo, e ∈ res.2 := by
          intro e he
          refine mono2 e ?_
          by_cases hc : i ≠ fi
          · rw [if_pos hc]
            exact List.mem_append_left _ he
          · rw [if_neg hc]
            exact he
        refine ⟨hooo, ?_⟩
        intro k f0 fi0 hk hfi0 hne
        cases k with
        | zero =>
          simp only [List.getElem?_cons_zero, Option.some.injEq] at hk
          subst hk
          rw [hf] at hfi0
          cases hfi0
          simp only [Nat.cast_zero, add_zero] at hne ⊢
          refine mono2 _ ?_
          rw [if_pos (Ne.symm hne)]
          exact List.mem_append_right _ (List.mem_singleton.2 rfl)
        | succ k =>
          simp only [List.getElem?_cons_succ] at hk
          have hne2 : fi0 ≠ (i + 1) + (k : Int) := by
            intro hc
            apply hne
            rw [hc]
            push_cast
            ring
          have hmem := pos2 k f0 fi0 hk hfi0 hne2
          have heq : (i + 1) + (k : Int) = i + ((k + 1 : Nat) : Int) := by
            push_cast
            ring
          rw [heq] at hmem
          exact hmem

lemma pairwise_lt_range' (s n : Nat) : (List.range' s n).Pairwise (· < ·) := by
  induction n generalizing s with
  | zero => simp
  | succ n ih =>
    rw [List.range'_succ]
    refine List.Pairwise.cons ?_ (ih (s + 1))
    intro b hb
    obtain ⟨k, hk, rfl⟩ := List.mem_range'.1 hb
    omega

lemma missingInit_sorted (t : Int) : (missingInit t).Sorted (· < ·) := by
  unfold missingInit
  refine List.Pairwise.map _ ?_ (pairwise_lt_range' 1 _)
  intro a b hab
  simp only [Int.ofNat_eq_coe]
  omega

lemma mem_missingInit (t x : Int) : x ∈ missingInit t ↔ 1 ≤ x ∧ x < t := by
  unfold missingInit
  simp only [List.mem_map, List.mem_range', Int.ofNat_eq_coe]
  constructor
  · rintro ⟨n, ⟨k, hk, rfl⟩, rfl⟩
    omega
  · intro hx
    refine ⟨x.toNat, ⟨x.toNat - 1, ?_, ?_⟩, ?_⟩ <;> omega

lemma analyzeLoop_missing_spec (fs : List QrData) : ∀ (i : Int) (missing : List Int)
    (ooo : List OutOfOrderEntry) (res : List Int × List OutOfOrderEntry),
    analyzeLoop fs i missing ooo = .ok res → missing.Sorted (· < ·) →
    res.1.Sorted (· < ·) ∧
    ∀ x : Int, x ∈ res.1 ↔ x ∈ missing ∧ ∀ f ∈ fs, f.frame_i ≠ some x := by
  induction fs with
  | nil =>
    intro i missing ooo res h hs
    simp only [analyzeLoop, Except.ok.injEq] at h
    subst h
    exact ⟨hs, by simp⟩
  | cons f fs ih =>
    intro i missing ooo res h hs
    cases hf : f.frame_i with
    | none => simp [analyzeLoop, hf] at h
    | some fi =>
      cases hr : removeFirst missing fi with
      | none => simp [analyzeLoop, hf, hr] at h
      | some m2 =>
        simp only [analyzeLoop, hf, hr] at h
        obtain ⟨hfim, hm2⟩ := removeFirst_eq_some missing m2 fi hr
        subst hm2
        have hs2 : (missing.erase fi).Sorted (· < ·) :=
          List.Pairwise.sublist (List.erase_sublist fi missing) hs
        obtain ⟨hsorted, hmem⟩ := ih (i + 1) (missing.erase fi) _ res h hs2
        refine ⟨hsorted, fun x => ?_⟩
        rw [hmem x, List.Nodup.mem_erase_iff hs.nodup]
        constructor
        · rintro ⟨⟨hne, hx⟩, hrest⟩
          refine ⟨hx, fun g hg => ?_⟩
          cases List.mem_cons.1 hg with
          | inl h1 =>
            subst h1
            rw [hf]
            simp only [ne_eq, Option.some.injEq]
            exact fun hc => hne hc.symm
          | inr h2 => exact hrest g h2
        · rintro ⟨hx, hall⟩
          have hxne : x ≠ fi := by
            intro hc
            subst hc
            exact hall f (List.mem_cons_self f fs) hf
          exact ⟨⟨hxne, hx⟩, fun g hg => hall g (List.mem_cons_of_mem _ hg)⟩

lemma get_cons_set_perm {α : Type u} (t : List α) : ∀ (k : Nat) (x : α),
    k < t.length → ∀ h : k < t.length, List.Perm (t[k] :: t.set k x) (x :: t) := by
  induction t with
  | nil => intro k x h; simp at h
  | cons y t2 ih =>
    intro k x hk h
    cases k with
    | zero =>
      simp only [List.getElem_cons_zero, List.set_cons_zero]
      exact List.Perm.swap x y t2
    | succ k =>
      simp only [List.getElem_cons_succ, List.set_cons_succ]
      have h2 : k < t2.length := by simpa using h
      have s1 : List.Perm (t2[k] :: y :: t2.set k x) (y :: t2[k] :: t2.set k x) :=
        List.Perm.swap y (t2[k]) _
      have s2 : List.Perm (y :: t2[k] :: t2.set k x) (y :: x :: t2) := (ih k x h2 h2).cons y
      have s3 : List.Perm (y :: x :: t2) (x :: y :: t2) := List.Perm.swap x y t2
      exact (s1.trans s2).trans s3

lemma set_set_perm {α : Type u} (l : List α) : ∀ (a b : Nat)
    (ha : a < l.length) (hb : b < l.length),
    List.Perm ((l.set a l[b]).set b l[a]) l := by
  induction l with
  | nil => intro a b ha; simp at ha
  | cons x t ih =>
    intro a b ha hb
    cases a with
    | zero =>
      cases b with
      | zero => simp
      | succ k =>
        simp only [List.getElem_cons_zero, List.getElem_cons_succ,
          List.set_cons_zero, List.set_cons_succ]
        have h2 : k < t.length := by simpa using hb
        exact get_cons_set_perm t k x h2 h2
    | succ j =>
      cases b with
      | zero =>
        simp only [List.getElem_cons_zero, List.getElem_cons_succ,
          List.set_cons_zero, List.set_cons_succ]
        have h2 : j < t.length := by simpa using ha
        exact get_cons_set_perm t j x h2 h2
      | succ k =>
        simp only [List.getElem_cons_succ, List.set_cons_succ]
        have h2 : j < t.length := by simpa using ha
        have h3 : k < t.length := by simpa using hb
        exact (ih j k h2 h3).cons x

lemma listSwap_perm {α : Type u} (l : List α) (a b : Nat)
    (ha : a < l.length) (hb : b < l.length) : List.Perm (listSwap l a b) l := by
  unfold listSwap
  rw [List.getElem?_eq_getElem ha, List.getElem?_eq_getElem hb]
  exact set_set_perm l a b ha hb

lemma listSwap_getElem_zero {α : Type u} (l : List α) (a b : Nat)
    (ha : 1 ≤ a) (hb : 1 ≤ b) : (listSwap l a b)[0]? = l[0]? := by
  unfold listSwap
  cases h1 : l[a]? with
  | none => cases h2 : l[b]? <;> rfl
  | some x =>
    cases h2 : l[b]? with
    | none => rfl
    | some y =>
      rw [List.getElem?_set_ne (show b ≠ 0 by omega),
        List.getElem?_set_ne (show a ≠ 0 by omega)]

lemma listSwap_length {α : Type u} (l : List α) (a b : Nat) :
    (listSwap l a b).length = l.length := by
  unfold listSwap
  cases h1 : l[a]? <;> cases h2 : l[b]? <;> simp

lemma consumeHeader_append (p s : List Char) : consumeHeader p (p ++ s) = some s := by
  induction p with
  | nil => rfl
  | cons c ps ih => simp [consumeHeader, ih]

lemma consumeHeader_sync_of_frame (s : List Char) :
    consumeHeader syncHeader (frameHeader ++ s) = none := rfl

lemma digitChar_isDigit (d : Nat) (h : d < 10) : isDigitChar (digitChar d) = true := by
  interval_cases d <;> decide

lemma digitChar_val (d : Nat) (h : d < 10) : (digitChar d).toNat - 48 = d := by
  interval_cases d <;> decide

lemma natToCharsAux_digits (fuel : Nat) : ∀ n, n < fuel →
    ∀ c ∈ natToCharsAux fuel n, isDigitChar c = true := by
  induction fuel with
  | zero => intro n hn; omega
  | succ fuel ih =>
    intro n hn c hc
    by_cases h10 : n < 10
    · simp only [natToCharsAux, if_pos h10, List.mem_singleton] at hc
      subst hc
      exact digitChar_isDigit n h10
    · simp only [natToCharsAux, if_neg h10, List.mem_append, List.mem_singleton] at hc
      cases hc with
      | inl h1 =>
        have hdiv : n / 10 < n := Nat.div_lt_self (by omega) (by omega)
        exact ih (n / 10) (by omega) c h1
      | inr h2 =>
        subst h2
        exact digitChar_isDigit _ (Nat.mod_lt n (by omega))

lemma natToCharsAux_ne_nil (fuel n : Nat) (h : n < fuel) :
    natToCharsAux fuel n ≠ [] := by
  cases fuel with
  | zero => omega
  | succ fuel =>
    by_cases h10 : n < 10
    · simp [natToCharsAux, if_pos h10]
    · simp [natToCharsAux, if_neg h10]

lemma digitsToNat_append (xs : List Char) : ∀ (ys : List Char) (acc : Nat),
    digitsToNat acc (xs ++ ys) = digitsToNat (digitsToNat acc xs) ys := by
  induction xs with
  | nil => intro ys acc; rfl
  | cons c cs ih =>
    intro ys acc
    rw [List.cons_append]
    show digitsToNat (acc * 10 + (c.toNat - 48)) (cs ++ ys) = _
    rw [ih]
    rfl

lemma digitsToNat_natToCharsAux (fuel : Nat) : ∀ n acc, n < fuel →
    digitsToNat acc (natToCharsAux fuel n) =
      acc * 10 ^ (natToCharsAux fuel n).length + n := by
  induction fuel with
  | zero => intro n acc hn; omega
  | succ fuel ih =>
    intro n acc hn
    have hstep : natToCharsAux (fuel + 1) n =
        if n < 10 then [digitChar n]
        else natToCharsAux fuel (n / 10) ++ [digitChar (n % 10)] := rfl
    by_cases h10 : n < 10
    · rw [hstep, if_pos h10]
      show digitsToNat (acc * 10 + ((digitChar n).toNat - 48)) [] =
        acc * 10 ^ ([digitChar n] : List Char).length + n
      rw [digitChar_val n h10, List.length_singleton, pow_one]
      rfl
    · have hdiv : n / 10 < n := Nat.div_lt_self (by omega) (by omega)
      have hfuel : n / 10 < fuel := by omega
      rw [hstep, if_neg h10, digitsToNat_append, List.length_append]
      show digitsToNat (digitsToNat acc (natToCharsAux fuel (n / 10)) * 10 +
          ((digitChar (n % 10)).toNat - 48)) [] = _
      rw [digitChar_val _ (Nat.mod_lt n (by omega)), ih (n / 10) acc hfuel]
      show (acc * 10 ^ (natToCharsAux fuel (n / 10)).length + n / 10) * 10 + n % 10 = _
      simp only [List.length_singleton]
      have hdm : 10 * (n / 10) + n % 10 = n := Nat.div_add_mod n 10
      have hpow : 10 ^ ((natToCharsAux fuel (n / 10)).length + 1) =
          10 ^ (natToCharsAux fuel (n / 10)).length * 10 := pow_succ 10 _
      rw [hpow]
      have hring : (acc * 10 ^ (natToCharsAux fuel (n / 10)).length + n / 10) * 10 + n % 10 =
          acc * (10 ^ (natToCharsAux fuel (n / 10)).length * 10) +
            (10 * (n / 10) + n % 10) := by ring
      rw [hring, hdm]

lemma takeDigits_append_digits (ds : List Char) (hds : ∀ c ∈ ds, isDigitChar c = true)
    (c0 : Char) (r : List Char) (hc0 : isDigitChar c0 = false) :
    takeDigits (ds ++ c0 :: r) = (ds, c0 :: r) := by
  induction ds with
  | nil => simp [takeDigits, hc0]
  | cons d ds ih =>
    have hd : isDigitChar d = true := hds d (List.mem_cons_self d ds)
    have hrest : ∀ c ∈ ds, isDigitChar c = true :=
      fun c hc => hds c (List.mem_cons_of_mem _ hc)
    simp [takeDigits, hd, ih hrest]

lemma parseNatTail_natToChars (m : Nat) :
    parseNatTail (natToChars m ++ ['\x7d']) = some m := by
  unfold parseNatTail natToChars
  rw [takeDigits_append_digits _ (natToCharsAux_digits _ _ (Nat.lt_succ_self m)) _ _
    (by decide)]
  simp only [if_neg (natToCharsAux_ne_nil _ _ (Nat.lt_succ_self m)), if_pos rfl]
  rw [digitsToNat_natToCharsAux _ _ _ (Nat.lt_succ_self m)]
  simp

/-! ## Claim theorems -/

/-- C1.  The claim says a duplicated or out-of-range `frame_index` raises a
distinguishable, reportable anomaly and never an unhandled exception.  The
code instead calls `missing_frames.remove(frame_i)` with no membership check
(scan_qr_codes_from_video.py line 118), so a duplicate declared index raises
an uncaught Python `ValueError` and the analysis crashes: on the observed
stream `[{total_frames: 3}, {frame_i: 1}, {frame_i: 1}]` the engine aborts
with the `ValueError` outcome. -/
theorem analyze_duplicate_value_error :
    analyze_frames_data [⟨some 3, none⟩, ⟨none, some 1⟩, ⟨none, some 1⟩] =
      .error .valueError := by decide

/-- C4 counterexample.  The claim says a `scramble` argument exceeding
`num_frames` fails validation; but `parse_args` of qr_gen.py only rejects a
negative `scramble`, so `num_frames = 2` with `scramble = 5` passes validation
and generation proceeds. -/
theorem parse_args_scramble_exceeds_accepted :
    parse_args ⟨2, none, some 5, none⟩ = some ⟨2, none, some 5, none⟩ := by decide

/-- C4 amended.  The only `scramble` check in `parse_args` (qr_gen.py lines
93-95) is the sign check: whenever `scramble` is a negative value, validation
fails (`None` is returned after a descriptive error is printed, and the caller
exits with status 1 before any video is written). -/
theorem parse_args_scramble_negative_rejected (a : GenArgs) (v : Int)
    (hs : a.scramble = some v) (hv : v < 0) : parse_args a = none := by
  unfold parse_args
  split
  · rfl
  · split
    · rfl
    · have hb : scrambleBad a.scramble = true := by
        rw [hs]
        simp [scrambleBad]
        omega
      rw [if_pos hb]

/-- C4 amended witness at `num_frames = 3`, `scramble = -1`. -/
theorem parse_args_scramble_negative_rejected_witness :
    (GenArgs.mk 3 none (some (-1)) none).scramble = some (-1) ∧ (-1 : Int) < 0 ∧
      parse_args ⟨3, none, some (-1), none⟩ = none :=
  ⟨rfl, by decide, parse_args_scramble_negative_rejected ⟨3, none, some (-1), none⟩ (-1) rfl (by decide)⟩

/-- C3.  On the untouched output of the generator — the sync dictionary
carrying `N` at position 0 followed by the frame dictionaries `1 .. N-1` in
order — reconciliation reports the expected total `N`, no missing frames and
no out-of-order frames. -/
theorem analyze_generate_clean (N : Nat) (h : 0 < N) :
    analyze_frames_data (generate_qr_codes N) =
      .ok ⟨Int.ofNat N, [], []⟩ := by
  rw [generate_qr_codes_eq N h]
  have hs : read_sync_frame (syncData (Int.ofNat N)) = (true, Int.ofNat N) := by
    simp only [read_sync_frame, syncData]
    rw [if_neg (show ¬(Int.ofNat N = 0) by rw [Int.ofNat_eq_coe]; omega)]
  simp only [analyze_frames_data, hs]
  have ht : (Int.ofNat N - 1).toNat = N - 1 := by rw [Int.ofNat_eq_coe]; omega
  have hm : missingInit (Int.ofNat N) = (List.range' 1 (N - 1)).map Int.ofNat := by
    unfold missingInit
    rw [ht]
  rw [hm]
  have hl := analyzeLoop_clean (N - 1) 1 []
  rw [show (Int.ofNat 1) = (1 : Int) from rfl] at hl
  rw [hl]
  rfl

/-- C3 witness at `N = 4`. -/
theorem analyze_generate_clean_witness :
    0 < 4 ∧ analyze_frames_data (generate_qr_codes 4) = .ok ⟨Int.ofNat 4, [], []⟩ :=
  ⟨by decide, analyze_generate_clean 4 (by decide)⟩

/-- C2 counterexample.  The claim (following the spec) requires the entry for
playback position `i = 1` with declared index 2 to be recorded as
`expected_index = 1`, `actual_index = 2`.  The code records the opposite
orientation (scan_qr_codes_from_video.py lines 121-124): on
`[{total_frames: 3}, {frame_i: 2}]` the only out-of-order record is
`{expected_frame_i: 2, actual_frame_i: 1}`, and no record with
`expected_frame_i = 1` and `actual_frame_i = 2` exists in the report. -/
theorem analyze_ooo_orientation_counterexample :
    analyze_frames_data [⟨some 3, none⟩, ⟨none, some 2⟩] =
      .ok ⟨3, [1], [⟨2, 1⟩]⟩ ∧
    (⟨1, 2⟩ : OutOfOrderEntry) ∉
      (Report.mk 3 [1] [⟨2, 1⟩]).out_of_order_frames := by decide

/-- C2 amended.  For every accepted observed sequence and every non-sync entry
at 1-based playback position `k + 1` whose declared `frame_i` differs from its
position, the report contains the out-of-order record whose `expected_frame_i`
field equals the declared `frame_i` and whose `actual_frame_i` field equals
the playback position. -/
theorem analyze_ooo_recorded (obs : List QrData) (r : Report)
    (h : analyze_frames_data obs = .ok r) (k : Nat) (f : QrData) (fi : Int)
    (hk : obs.tail[k]? = some f) (hfi : f.frame_i = some fi)
    (hne : fi ≠ (k : Int) + 1) :
    (⟨fi, (k : Int) + 1⟩ : OutOfOrderEntry) ∈ r.out_of_order_frames := by
  cases obs with
  | nil => cases h
  | cons first rest =>
    simp only [analyze_frames_data] at h
    by_cases hs : (read_sync_frame first).1
    · rw [if_pos hs] at h
      cases hl : analyzeLoop rest 1 (missingInit (read_sync_frame first).2) [] with
      | error e => rw [hl] at h; cases h
      | ok p =>
        rw [hl] at h
        cases h
        have hmem := (analyzeLoop_ooo_mono_mem rest 1 _ [] p hl).2 k f fi
          (by simpa using hk) hfi (by omega)
        have heq : (1 : Int) + (k : Int) = (k : Int) + 1 := by ring
        rw [heq] at hmem
        exact hmem
    · rw [if_neg hs] at h
      cases h

/-- C2 amended witness: stream `[{total_frames: 3}, {frame_i: 2}]`, position
1 declares 2, and the record `{expected_frame_i: 2, actual_frame_i: 1}` is in
the report. -/
theorem analyze_ooo_recorded_witness :
    analyze_frames_data [⟨some 3, none⟩, ⟨none, some 2⟩] = .ok ⟨3, [1], [⟨2, 1⟩]⟩ ∧
    (⟨2, ((0 : Nat) : Int) + 1⟩ : OutOfOrderEntry) ∈
      (Report.mk 3 [1] [⟨2, 1⟩]).out_of_order_frames :=
  ⟨by decide,
    analyze_ooo_recorded [⟨some 3, none⟩, ⟨none, some 2⟩] ⟨3, [1], [⟨2, 1⟩]⟩
      (by decide) 0 ⟨none, some 2⟩ 2 rfl rfl (by decide)⟩

/-- C6.  On every accepted run (in particular, no duplicate or out-of-range
declared index aborted the walk), the reported missing list is strictly
ascending and holds exactly the indices of `{1, .., expected_total_frames - 1}`
that no non-sync entry of the observed sequence declared. -/
theorem analyze_missing_exact (obs : List QrData) (r : Report)
    (h : analyze_frames_data obs = .ok r) :
    r.missing_frames.Sorted (· < ·) ∧
    ∀ x : Int, x ∈ r.missing_frames ↔
      1 ≤ x ∧ x < r.total_frames ∧ ∀ f ∈ obs.tail, f.frame_i ≠ some x := by
  cases obs with
  | nil => cases h
  | cons first rest =>
    simp only [analyze_frames_data] at h
    by_cases hs : (read_sync_frame first).1
    · rw [if_pos hs] at h
      cases hl : analyzeLoop rest 1 (missingInit (read_sync_frame first).2) [] with
      | error e => rw [hl] at h; cases h
      | ok p =>
        rw [hl] at h
        cases h
        obtain ⟨hsorted, hmem⟩ :=
          analyzeLoop_missing_spec rest 1 _ [] p hl (missingInit_sorted _)
        refine ⟨hsorted, fun x => ?_⟩
        rw [hmem x, mem_missingInit]
        simp only [List.tail_cons, and_assoc]
    · rw [if_neg hs] at h
      cases h

/-- C6 witness: stream `[{total_frames: 4}, {frame_i: 2}]` gives the sorted
missing list `[1, 3]`, exactly the undeclared indices of `{1, 2, 3}`. -/
theorem analyze_missing_exact_witness :
    analyze_frames_data [⟨some 4, none⟩, ⟨none, some 2⟩] =
      .ok ⟨4, [1, 3], [⟨2, 1⟩]⟩ ∧
    ((Report.mk 4 [1, 3] [⟨2, 1⟩]).missing_frames.Sorted (· < ·) ∧
      ∀ x : Int, x ∈ (Report.mk 4 [1, 3] [⟨2, 1⟩]).missing_frames ↔
        1 ≤ x ∧ x < (Report.mk 4 [1, 3] [⟨2, 1⟩]).total_frames ∧
          ∀ f ∈ ([⟨some 4, none⟩, ⟨none, some 2⟩] : List QrData).tail,
            f.frame_i ≠ some x) :=
  ⟨by decide, analyze_missing_exact [⟨some 4, none⟩, ⟨none, some 2⟩]
    ⟨4, [1, 3], [⟨2, 1⟩]⟩ (by decide)⟩

/-- C7.  Reconciliation fails with the empty-input error exactly when the
observed sequence is empty: `analyze_frames_data` returns the printed-error
outcome `EmptyInput` on `[]` (and then no report is produced), and no other
input reaches that outcome. -/
theorem analyze_emptyInput_iff (obs : List QrData) :
    analyze_frames_data obs = .error .emptyInput ↔ obs = [] := by
  cases obs with
  | nil => simp [analyze_frames_data]
  | cons first rest =>
    simp only [analyze_frames_data]
    constructor
    · intro h
      by_cases hs : (read_sync_frame first).1
      · rw [if_pos hs] at h
        cases hl : analyzeLoop rest 1 (missingInit (read_sync_frame first).2) [] with
        | error e =>
          rw [hl] at h
          cases h
          exact absurd hl (analyzeLoop_ne_emptyInput _ _ _ _)
        | ok p => rw [hl] at h; cases h
      · rw [if_neg hs] at h
        cases h
    · intro h
      cases h

/-- C8.  Round-trip law of the payload codec: for every valid payload (a sync
record or frame record with a positive integer field), deserializing the
serialized dictionary returns the same payload. -/
theorem decode_encode_roundtrip (p : Payload) (h : validPayload p) :
    decode (encode p) = some p := by
  cases p with
  | sync n =>
    have hpos : (0 : Int) < n := h
    show decode (syncHeader ++ natToChars n.toNat ++ ['\x7d']) = some (.sync n)
    rw [List.append_assoc]
    simp only [decode, consumeHeader_append, parseNatTail_natToChars,
      Option.map_some']
    rw [Int.ofNat_eq_coe, Int.toNat_of_nonneg (le_of_lt hpos)]
  | frame k =>
    have hpos : (0 : Int) < k := h
    show decode (frameHeader ++ natToChars k.toNat ++ ['\x7d']) = some (.frame k)
    rw [List.append_assoc]
    simp only [decode, consumeHeader_sync_of_frame, consumeHeader_append,
      parseNatTail_natToChars, Option.map_some']
    rw [Int.ofNat_eq_coe, Int.toNat_of_nonneg (le_of_lt hpos)]

/-- C8 witness at the sync record with total 3. -/
theorem decode_encode_roundtrip_witness :
    validPayload (.sync 3) ∧ decode (encode (.sync 3)) = some (.sync 3) :=
  ⟨show (0 : Int) < 3 by decide,
    decode_encode_roundtrip (.sync 3) (show (0 : Int) < 3 by decide)⟩

/-- C5.  Under the model of `random.sample` outcomes — each drawn pair holds
two distinct indices from the non-sync region `1 .. N-1` — the shuffle performs
one swap per pair and returns a list that keeps the entry at position 0 (the
sync record) unchanged and is a permutation of the input. -/
theorem random_shuffle_frames_spec {α : Type u} (l : List α)
    (choices : List (Nat × Nat)) (hv : ∀ c ∈ choices, validSwapPair l.length c) :
    ∃ m, random_shuffle_frames l choices = some m ∧ m[0]? = l[0]? ∧
      List.Perm m l := by
  induction choices generalizing l with
  | nil => exact ⟨l, rfl, rfl, List.Perm.refl l⟩
  | cons c cs ih =>
    obtain ⟨h1, h2, h3, h4, h5⟩ := hv c (List.mem_cons_self c cs)
    have hlen : 3 ≤ l.length := by omega
    have hvs : ∀ d ∈ cs, validSwapPair (listSwap l c.1 c.2).length d := by
      intro d hd
      rw [listSwap_length]
      exact hv d (List.mem_cons_of_mem _ hd)
    obtain ⟨m, hm, h0, hp⟩ := ih (listSwap l c.1 c.2) hvs
    refine ⟨m, ?_, ?_, ?_⟩
    · simp only [random_shuffle_frames, sampleTwo, if_pos hlen]
      exact hm
    · rw [h0, listSwap_getElem_zero l c.1 c.2 h1 h3]
    · exact hp.trans (listSwap_perm l c.1 c.2 h2 h4)

/-- C5 witness: one swap of positions 1 and 2 on a three-entry list keeps
position 0 and permutes the rest. -/
theorem random_shuffle_frames_spec_witness :
    (∀ c ∈ ([(1, 2)] : List (Nat × Nat)),
      validSwapPair ([10, 20, 30] : List Nat).length c) ∧
    ∃ m, random_shuffle_frames ([10, 20, 30] : List Nat) [(1, 2)] = some m ∧
      m[0]? = ([10, 20, 30] : List Nat)[0]? ∧ List.Perm m [10, 20, 30] :=
  ⟨by decide, random_shuffle_frames_spec [10, 20, 30] [(1, 2)] (by decide)⟩

/-- C9.  When the frame list has fewer than three entries and at least one
swap is requested, `random.sample(range(1, len(qr_codes_cpy)), 2)` draws two
distinct values from a population with fewer than two elements, which raises
`ValueError`: the shuffle aborts instead of returning a list. -/
theorem random_shuffle_frames_short_fails {α : Type u} (l : List α)
    (choices : List (Nat × Nat)) (h : l.length < 3) (hc : choices ≠ []) :
    random_shuffle_frames l choices = none := by
  cases choices with
  | nil => exact absurd rfl hc
  | cons c cs =>
    simp only [random_shuffle_frames, sampleTwo]
    rw [if_neg (by omega)]

/-- C9 witness: a two-element list with one requested swap fails. -/
theorem random_shuffle_frames_short_fails_witness :
    ([10, 20] : List Nat).length < 3 ∧ ([(1, 2)] : List (Nat × Nat)) ≠ [] ∧
      random_shuffle_frames ([10, 20] : List Nat) [(1, 2)] = none :=
  ⟨by decide, by decide,
    random_shuffle_frames_short_fails [10, 20] [(1, 2)] (by decide) (by decide)⟩

/-- C10.  A first observed dictionary whose `total_frames` value is 0 (the
falsy integer) fails the truthiness guard in `read_sync_frame`, so the
analysis stops with the missing-sync-frame error; consequently no produced
report carries `expected_total_frames = 0`. -/
theorem analyze_zero_total_frames :
    (∀ (f : QrData) (rest : List QrData), f.total_frames = some 0 →
      analyze_frames_data (f :: rest) = .error .missingSyncFrame) ∧
    (∀ (obs : List QrData) (r : Report), analyze_frames_data obs = .ok r →
      r.total_frames ≠ 0) := by
  constructor
  · intro f rest h
    simp [analyze_frames_data, read_sync_frame, h]
  · intro obs r h
    cases obs with
    | nil => cases h
    | cons first rest =>
      simp only [analyze_frames_data] at h
      cases hf : first.total_frames with
      | none => simp [read_sync_frame, hf] at h
      | some t =>
        by_cases ht : t = 0
        · simp [read_sync_frame, hf, ht] at h
        · simp only [read_sync_frame, hf, if_neg ht] at h
          cases hl : analyzeLoop rest 1 (missingInit t) [] with
          | error e => rw [hl] at h; cases h
          | ok p =>
            rw [hl] at h
            cases h
            exact ht

/-- C10 witness: a zero sync value is rejected, and the report for the intact
three-frame stream has a nonzero total. -/
theorem analyze_zero_total_frames_witness :
    analyze_frames_data [⟨some 0, none⟩] = .error .missingSyncFrame ∧
      (Report.mk 3 [] []).total_frames ≠ 0 :=
  ⟨analyze_zero_total_frames.1 ⟨some 0, none⟩ [] rfl,
    analyze_zero_total_frames.2 [⟨some 3, none⟩, ⟨none, some 1⟩, ⟨none, some 2⟩]
      ⟨3, [], []⟩ (by decide)⟩

end VideoQrScan
